import Mathlib

/-!
Verification of the beat-finding experiment's analysis layer
(`beat finding experiment/experiment.py`).

The development shallowly embeds the pieces of the Python module that the
properties below are about:

* a JSON value model with a serializer (`dumps`, modelling `json.dumps` with
  its default separators) and a parser (`loads`, modelling `json.loads`);
  JSON numeric payloads are modelled as exact integers;
* the `functools.cache` memoization of `create_music_stim_with_repp` as
  explicit cache-state passing;
* the two asset generators `generate_music_stimulus_audio` /
  `generate_music_stimulus_info` and the descriptor reader
  `TapTrialAnalysis.get_info`;
* the orchestrator `TapTrialAnalysis.analyze_recording`, with Python
  exceptions embedded as `Except` values;
* the bot-media lookup `TapTrialMusic.get_bot_response_media` and the node
  construction `make_nodes`.

External library calls (`repp`, numpy) are embedded as function parameters:
in the shallow embedding an external call is a pure function supplied to the
definition that invokes it.
-/

namespace BeatFinding

/-- A JSON value.  Strings are kept as character lists (which is what the
round-trip proofs recurse over); object member order is significant, as it is
for `json.dumps`/`json.loads` on CPython dicts.  Numeric payloads are modelled
as exact integers. -/
inductive Json where
  | null : Json
  | bool (b : Bool) : Json
  | num (n : Int) : Json
  | str (s : List Char) : Json
  | arr (xs : List Json) : Json
  | obj (kvs : List (List Char × Json)) : Json

/-- Decimal digits of `n`, most significant first, as characters
(the digits of `str(n)` for a nonnegative Python int). -/
def natDigitsChars (n : Nat) : List Char :=
  if _h : n < 10 then [Nat.digitChar n]
  else natDigitsChars (n / 10) ++ [Nat.digitChar (n % 10)]
  termination_by n
  decreasing_by
    exact Nat.div_lt_self (by omega) (by omega)

/-- The characters of `str(i)` for a Python int `i`. -/
def intChars (i : Int) : List Char :=
  if i < 0 then '-' :: natDigitsChars i.natAbs else natDigitsChars i.natAbs

/-- JSON string escaping as `json.dumps` performs it on the characters the
well-formedness predicate `wfChars` admits (printable ASCII): only the quote
and the backslash need escaping there. -/
def escapeChar (c : Char) : List Char :=
  if c = '"' then ['\\', '"']
  else if c = '\\' then ['\\', '\\']
  else [c]

/-- Escape a whole string body. -/
def escapeChars : List Char → List Char
  | [] => []
  | c :: cs => escapeChar c ++ escapeChars cs

mutual

/-- `json.dumps` with CPython's default separators `", "` and `": "`,
restricted to the value model above. -/
def dumps : Json → List Char
  | Json.null => ['n', 'u', 'l', 'l']
  | Json.bool true => ['t', 'r', 'u', 'e']
  | Json.bool false => ['f', 'a', 'l', 's', 'e']
  | Json.num i => intChars i
  | Json.str s => '"' :: (escapeChars s ++ ['"'])
  | Json.arr xs => '[' :: (dumpsItems xs ++ [']'])
  | Json.obj kvs => '\x7b' :: (dumpsMembers kvs ++ ['\x7d'])

/-- The comma-space-separated element list of a serialized JSON array. -/
def dumpsItems : List Json → List Char
  | [] => []
  | [x] => dumps x
  | x :: y :: ys => dumps x ++ ',' :: ' ' :: dumpsItems (y :: ys)

/-- The comma-space-separated member list of a serialized JSON object. -/
def dumpsMembers : List (List Char × Json) → List Char
  | [] => []
  | [(k, v)] => '"' :: (escapeChars k ++ '"' :: ':' :: ' ' :: dumps v)
  | (k, v) :: m :: ms =>
      ('"' :: (escapeChars k ++ '"' :: ':' :: ' ' :: dumps v))
        ++ ',' :: ' ' :: dumpsMembers (m :: ms)

end

/-- Printable-ASCII well-formedness of a string payload: characters that
`json.dumps` neither `\u`-escapes (control characters, `ensure_ascii` for
codepoints above 127) nor rejects. -/
def wfChars (s : List Char) : Bool :=
  s.all (fun c => decide (32 ≤ c.toNat) && decide (c.toNat ≤ 126))

mutual

/-- Well-formedness of a JSON value: every string payload (including object
keys) is printable ASCII. -/
def wfJson : Json → Bool
  | Json.null => true
  | Json.bool _ => true
  | Json.num _ => true
  | Json.str s => wfChars s
  | Json.arr xs => wfItems xs
  | Json.obj kvs => wfMembers kvs

/-- Well-formedness of a list of array elements. -/
def wfItems : List Json → Bool
  | [] => true
  | x :: xs => wfJson x && wfItems xs

/-- Well-formedness of a list of object members. -/
def wfMembers : List (List Char × Json) → Bool
  | [] => true
  | (k, v) :: kvs => wfChars k && wfJson v && wfMembers kvs

end

/-! ## The parser (`json.loads`) -/

/-- Is `c` a decimal digit? -/
def isDigitChar (c : Char) : Bool :=
  decide (48 ≤ c.toNat) && decide (c.toNat ≤ 57)

/-- Numeric value of a run of digit characters, most significant first. -/
def digitsToNat (ds : List Char) : Nat :=
  ds.foldl (fun a c => 10 * a + (c.toNat - 48)) 0

/-- Parse a maximal nonempty run of digits into a natural number. -/
def parseNat (cs : List Char) : Option (Nat × List Char) :=
  match cs.takeWhile isDigitChar with
  | [] => none
  | ds => some (digitsToNat ds, cs.dropWhile isDigitChar)

/-- Drop leading JSON whitespace. -/
def skipSpaces (cs : List Char) : List Char :=
  cs.dropWhile (fun c => c = ' ' || c = '\t' || c = '\n' || c = '\r')

/-- Consume an expected literal run of characters. -/
def dropLit : List Char → List Char → Option (List Char)
  | [], cs => some cs
  | _ :: _, [] => none
  | l :: ls, c :: cs => if c = l then dropLit ls cs else none

/-- Resolve a JSON escape character (the `\uXXXX` form is outside the model;
`wfChars` strings never serialize to it). -/
def unescapeChar (c : Char) : Option Char :=
  if c = '"' then some '"'
  else if c = '\\' then some '\\'
  else if c = '/' then some '/'
  else if c = 'n' then some (Char.ofNat 10)
  else if c = 't' then some (Char.ofNat 9)
  else if c = 'r' then some (Char.ofNat 13)
  else if c = 'b' then some (Char.ofNat 8)
  else if c = 'f' then some (Char.ofNat 12)
  else none

/-- Parse the body of a JSON string literal, after its opening quote, up to
and including its closing quote. -/
def parseStringBody : List Char → Option (List Char × List Char)
  | [] => none
  | c :: rest =>
    if c = '"' then some ([], rest)
    else if c = '\\' then
      match rest with
      | [] => none
      | e :: rest2 =>
        match unescapeChar e, parseStringBody rest2 with
        | some u, some (s, r) => some (u :: s, r)
        | _, _ => none
    else
      match parseStringBody rest with
      | some (s, r) => some (c :: s, r)
      | none => none

mutual

/-- Fuel-indexed recursive-descent JSON value parser: skip leading
whitespace, then dispatch on the first character. -/
def parseJson : Nat → List Char → Option (Json × List Char)
  | 0, _ => none
  | Nat.succ fuel, cs => parseJsonCore fuel (skipSpaces cs)
  termination_by fuel _ => (fuel, 2)

/-- Dispatch on the first character of a whitespace-stripped JSON value. -/
def parseJsonCore : Nat → List Char → Option (Json × List Char)
  | _, [] => none
  | fuel, c :: rest =>
    if c = 'n' then
      match dropLit ['u', 'l', 'l'] rest with
      | some r => some (Json.null, r)
      | none => none
    else if c = 't' then
      match dropLit ['r', 'u', 'e'] rest with
      | some r => some (Json.bool true, r)
      | none => none
    else if c = 'f' then
      match dropLit ['a', 'l', 's', 'e'] rest with
      | some r => some (Json.bool false, r)
      | none => none
    else if c = '"' then
      match parseStringBody rest with
      | some (s, r) => some (Json.str s, r)
      | none => none
    else if c = '[' then
      match skipSpaces rest with
      | [] => none
      | c2 :: r2 =>
        if c2 = ']' then some (Json.arr [], r2)
        else
          match parseItems fuel rest with
          | some (xs, r) => some (Json.arr xs, r)
          | none => none
    else if c = '\x7b' then
      match skipSpaces rest with
      | [] => none
      | c2 :: r2 =>
        if c2 = '\x7d' then some (Json.obj [], r2)
        else
          match parseMembers fuel rest with
          | some (kvs, r) => some (Json.obj kvs, r)
          | none => none
    else if c = '-' then
      match parseNat rest with
      | some (n, r) => some (Json.num (-(n : Int)), r)
      | none => none
    else
      match parseNat (c :: rest) with
      | some (n, r) => some (Json.num (n : Int), r)
      | none => none
  termination_by fuel _ => (fuel, 1)

/-- Parse the elements of a nonempty JSON array, up to and including the
closing bracket. -/
def parseItems : Nat → List Char → Option (List Json × List Char)
  | 0, _ => none
  | Nat.succ fuel, cs =>
    match parseJson fuel cs with
    | some (x, r) =>
      match skipSpaces r with
      | [] => none
      | c :: r2 =>
        if c = ',' then
          match parseItems fuel r2 with
          | some (xs, r3) => some (x :: xs, r3)
          | none => none
        else if c = ']' then some ([x], r2)
        else none
    | none => none
  termination_by fuel _ => (fuel, 0)

/-- Parse the members of a nonempty JSON object, up to and including the
closing brace. -/
def parseMembers : Nat → List Char → Option (List (List Char × Json) × List Char)
  | 0, _ => none
  | Nat.succ fuel, cs =>
    match skipSpaces cs with
    | [] => none
    | c :: rest =>
      if c = '"' then
        match parseStringBody rest with
        | some (k, r) =>
          match skipSpaces r with
          | [] => none
          | c1 :: r1 =>
            if c1 = ':' then
              match parseJson fuel r1 with
              | some (v, r2) =>
                match skipSpaces r2 with
                | [] => none
                | c2 :: r3 =>
                  if c2 = ',' then
                    match parseMembers fuel r3 with
                    | some (kvs, r4) => some ((k, v) :: kvs, r4)
                    | none => none
                  else if c2 = '\x7d' then some ([(k, v)], r3)
                  else none
              | none => none
            else none
        | none => none
      else none
  termination_by fuel _ => (fuel, 0)

end

/-- `json.loads`: parse a complete JSON document, requiring that only
whitespace remains. -/
def loads (cs : List Char) : Option Json :=
  match parseJson (2 * cs.length + 2) cs with
  | some (v, r) => if skipSpaces r = [] then some v else none
  | none => none

/-- `true` when the input does not continue with a decimal digit — the
boundary condition under which a serialized number is read back whole. -/
def noDigitAhead : List Char → Bool
  | [] => true
  | c :: _ => !isDigitChar c

mutual

/-- Parser fuel sufficient for the serialization of a value. -/
def fuelJson : Json → Nat
  | Json.null => 1
  | Json.bool _ => 1
  | Json.num _ => 1
  | Json.str _ => 1
  | Json.arr xs => 1 + fuelItems xs
  | Json.obj kvs => 1 + fuelMembers kvs

/-- Parser fuel sufficient for a serialized element list. -/
def fuelItems : List Json → Nat
  | [] => 1
  | x :: xs => 1 + fuelJson x + fuelItems xs

/-- Parser fuel sufficient for a serialized member list. -/
def fuelMembers : List (List Char × Json) → Nat
  | [] => 1
  | (_, v) :: kvs => 1 + fuelJson v + fuelMembers kvs

end

/-! ## `functools.cache`

`create_music_stim_with_repp` is decorated with `@cache`.  The decorator's
process-wide memo table is embedded as explicit state: an association list
from argument tuples to results, threaded through every call.  Each call
additionally reports whether it invoked the underlying function. -/

/-- Look an argument tuple up in a memo table. -/
def cacheLookup {α β : Type} [DecidableEq α] : List (α × β) → α → Option β
  | [], _ => none
  | (k, b) :: rest, a => if a = k then some b else cacheLookup rest a

/-- Outcome of one call to a `functools.cache`-decorated function:
the returned value, the memo table afterwards, and whether the underlying
function was invoked. -/
structure CacheResult (α β : Type) where
  value : β
  state : List (α × β)
  recomputed : Bool

/-- One call to a `functools.cache`-decorated function `f`: serve a hit from
the memo table untouched, otherwise invoke `f` and record the result. -/
def cachedCall {α β : Type} [DecidableEq α] (f : α → β) (σ : List (α × β))
    (a : α) : CacheResult α β :=
  match cacheLookup σ a with
  | some b => ⟨b, σ, false⟩
  | none => ⟨f a, (a, f a) :: σ, true⟩

/-- Run a sequence of calls to a cached function, returning the trace of
(argument, recomputed) pairs and the final memo table. -/
def runCachedCalls {α β : Type} [DecidableEq α] (f : α → β)
    (σ : List (α × β)) : List α → List (α × Bool) × List (α × β)
  | [] => ([], σ)
  | a :: as =>
    let r := cachedCall f σ a
    let rest := runCachedCalls f r.state as
    ((a, r.recomputed) :: rest.1, rest.2)

/-- Number of underlying invocations for argument `a` in a call trace. -/
def countRecomputes {α : Type} [DecidableEq α] (a : α)
    (tr : List (α × Bool)) : Nat :=
  tr.countP (fun p => decide (p.1 = a) && p.2)

/-! ## Stimulus preparation

The body of `create_music_stim_with_repp` builds a `REPPStimulus` for
`stim_name` and calls `prepare_stim_from_files("music")` on it, then
serializes the resulting `stim_info` with `json.dumps`.  The external library
call is a parameter `prep` taking the stimulus name and the directory
argument; `W` is the type of prepared waveforms.  Note the faithful quirk:
the body never reads `audio_filename`, though it is part of the cache key. -/

/-- The uncached body of `create_music_stim_with_repp`:
`REPPStimulus(stim_name, config=sms_tapping).prepare_stim_from_files("music")`
followed by `json.dumps(stim_info, cls=NumpySerializer)`. -/
def create_music_stim_body {W : Type} (prep : String → String → W × Json × Json)
    (arg : String × String) : W × List Char :=
  let r := prep arg.1 "music"
  (r.1, dumps r.2.1)

/-- `create_music_stim_with_repp(stim_name, audio_filename)` under `@cache`,
with the memo table `σ` explicit. -/
def create_music_stim_with_repp {W : Type}
    (prep : String → String → W × Json × Json) (σ : List ((String × String) × (W × List Char)))
    (stim_name audio_filename : String) : CacheResult (String × String) (W × List Char) :=
  cachedCall (create_music_stim_body prep) σ (stim_name, audio_filename)

/-- `generate_music_stimulus_audio`: the waveform component of the prepared
stimulus is written with `save_samples_to_file`.  The pair returned is the
file's sample content and the memo table afterwards. -/
def generate_music_stimulus_audio {W : Type}
    (prep : String → String → W × Json × Json) (σ : List ((String × String) × (W × List Char)))
    (stim_name audio_filename : String) : W × List ((String × String) × (W × List Char)) :=
  let r := create_music_stim_with_repp prep σ stim_name audio_filename
  (r.value.1, r.state)

/-- Modelled from the spec: `repp.utils.save_json_to_file` (external library,
not in `src/`) persists the descriptor "as a structured text record"; its
argument here is already a JSON text (a Python `str`), and
`TapTrialAnalysis.get_info` recovers it with `json.load` before decoding it
again with `json.loads`, so the writer is modelled as emitting the JSON
serialization of its string argument. -/
def save_json_to_file (s : List Char) : List Char :=
  dumps (Json.str s)

/-- `generate_music_stimulus_info`: the descriptor component of the prepared
stimulus is written with `save_json_to_file`.  The pair returned is the file's
text content and the memo table afterwards. -/
def generate_music_stimulus_info {W : Type}
    (prep : String → String → W × Json × Json) (σ : List ((String × String) × (W × List Char)))
    (stim_name audio_filename : String) : List Char × List ((String × String) × (W × List Char)) :=
  let r := create_music_stim_with_repp prep σ stim_name audio_filename
  (save_json_to_file r.value.2, r.state)

/-! ## `TapTrialAnalysis` -/

/-- `TapTrialAnalysis.get_info`, as a function of the exported descriptor
file's text: `json.loads(json.load(reader))`.  `json.load` parses the file to
a Python value, which must be a string for the inner `json.loads` to accept
it. -/
def get_info (fileContent : List Char) : Option Json :=
  match loads fileContent with
  | some (Json.str s) => loads s
  | _ => none

/-- `dict.get(key, default)` on a decoded JSON object's member list. -/
def jsonLookup : List (List Char × Json) → List Char → Option Json
  | [], _ => none
  | (k, v) :: kvs, key => if key = k then some v else jsonLookup kvs key

/-- Python attribute access `value.get(key, default)`: succeeds on a dict,
raises (`AttributeError`) on any other decoded JSON value. -/
def pyDictGet (v : Json) (key : List Char) (default : Json) : Except String Json :=
  match v with
  | Json.obj kvs => Except.ok ((jsonLookup kvs key).getD default)
  | _ => Except.error "AttributeError"

/-- A Python dict literal with string keys, as built by `analyze_recording`. -/
abbrev PyDict := List (String × Json)

/-- The `try` block of `analyze_recording`: run `REPPAnalysis.do_analysis` on
the stimulus info, then build the verdict dict, reading `is_failed` with
`.get("failed", False)` and `.get("reason", None)`.  Any raised exception is
an `Except.error`. -/
def analyzeTryBlock (info stim_name : Json)
    (do_analysis : Json → Except String (Json × Json × Json)) :
    Except String PyDict := do
  let r ← do_analysis info
  let failedVal ← pyDictGet r.2.2 "failed".toList (Json.bool false)
  let reasonVal ← pyDictGet r.2.2 "reason".toList Json.null
  Except.ok [("failed", failedVal),
             ("reason", reasonVal),
             ("output", Json.str (dumps r.1)),
             ("analysis", Json.str (dumps r.2.1)),
             ("stim_name", stim_name)]

/-- `TapTrialAnalysis.analyze_recording`.  `get_info_result` is the outcome of
`self.get_info()` (it can raise: file I/O and two JSON decodes);
`do_analysis` is the external `REPPAnalysis.do_analysis`, applied to the
decoded stimulus info, returning `(output, analysis, is_failed)` or raising.
The `info.get("stim_name", "unknown")` read happens before the `try` block,
so exceptions from `get_info` and from that read propagate; exceptions inside
the `try` block produce the `analysis_exception` verdict. -/
def analyze_recording (get_info_result : Except String Json)
    (do_analysis : Json → Except String (Json × Json × Json)) :
    Except String PyDict := do
  let info ← get_info_result
  let stim_name ← pyDictGet info "stim_name".toList (Json.str "unknown".toList)
  Except.ok <|
    match analyzeTryBlock info stim_name do_analysis with
    | Except.ok d => d
    | Except.error e =>
        [("failed", Json.bool true),
         ("reason", Json.str (("analysis_exception: " ++ e).toList)),
         ("output", Json.null),
         ("analysis", Json.null),
         ("stim_name", stim_name)]

/-- The named field of a verdict returned by `analyze_recording`, when a
verdict was returned at all. -/
def verdictField (r : Except String PyDict) (key : String) : Option Json :=
  match r with
  | Except.ok d => d.lookup key
  | Except.error _ => none

/-! ## The alignment scorer

`REPPAnalysis.do_analysis` belongs to the external `repp` library; only its
caller is in `src/`.  The scorer below is therefore modelled from the spec
(§4.3): onset times are exact rationals, each expected onset greedily takes
the nearest still-unmatched detected onset within the tolerance window
(earliest detected time on ties), and the verdict fails when the match rate
falls below the configured minimum. -/

/-- Outcome of scoring one recording against one stimulus descriptor. -/
structure AlignmentVerdict where
  failed : Bool
  reason : Option String
  perOnset : List (ℚ × Option ℚ)
deriving DecidableEq

/-- Modelled from the spec: the better of two candidate detected onsets for
an expected onset `e` — smaller absolute offset, ties broken by the earlier
detected time. -/
def betterOnset (e t u : ℚ) : ℚ :=
  if |t - e| < |u - e| ∨ (|t - e| = |u - e| ∧ t < u) then t else u

/-- Modelled from the spec: the nearest detected onset to `e` within the
tolerance window, among those still available. -/
def nearestWithin (tol e : ℚ) (ts : List ℚ) : Option ℚ :=
  (ts.filter (fun t => |t - e| ≤ tol)).foldl
    (fun acc t =>
      match acc with
      | none => some t
      | some u => some (betterOnset e t u)) none

/-- Modelled from the spec: greedy assignment, one expected onset at a time in
order; a matched detected onset becomes unavailable to later expected onsets. -/
def greedyMatches (tol : ℚ) : List ℚ → List ℚ → List (ℚ × Option ℚ)
  | [], _ => []
  | e :: es, avail =>
    match nearestWithin tol e avail with
    | none => (e, none) :: greedyMatches tol es avail
    | some t => (e, some t) :: greedyMatches tol es (avail.erase t)

/-- Modelled from the spec: `score(OnsetSet, StimulusDescriptor) ->
AlignmentVerdict` of §4.3, standing in for the external
`REPPAnalysis.do_analysis` (absent from `src/`).  The verdict fails when the
match rate falls below `minRate`; the reason distinguishes an empty detected
onset set (`no_taps_detected`) from a low match rate. -/
def score (onsets expected : List ℚ) (tol minRate : ℚ) : AlignmentVerdict :=
  let ms := greedyMatches tol expected onsets
  let matched : Nat := ms.countP (fun p => p.2.isSome)
  let rate : ℚ := if expected.length = 0 then 1 else (matched : ℚ) / (expected.length : ℚ)
  let failed := rate < minRate
  { failed := failed
    reason :=
      if failed then
        if onsets.isEmpty then some "no_taps_detected" else some "below_minimum_match_rate"
      else none
    perOnset := ms }

/-! ## Stimulus tables, nodes and bot media -/

/-- The configured main stimulus names. -/
def music_stimulus_name : List String :=
  ["music1psynet", "music2psynet", "music3psynet", "music4psynet"]

/-- The configured main stimulus audio files. -/
def music_stimulus_audio : List String :=
  ["music/music1psynet.wav", "music/music2psynet.wav",
   "music/music3psynet.wav", "music/music4psynet.wav"]

/-- The configured practice stimulus names. -/
def practice_stimulus_name : List String :=
  ["music_practice1", "music_practice2"]

/-- The configured practice stimulus audio files. -/
def practice_stimulus_audio : List String :=
  ["music/music_practice1.wav", "music/music_practice2.wav"]

/-- The definition dict of a `StaticNode` built by `make_nodes`. -/
structure NodeDefinition where
  stim_name : String
  audio_filename : String
deriving DecidableEq

/-- `make_nodes`: one node per `zip(names, audios)` pair. -/
def make_nodes (names audios : List String) : List NodeDefinition :=
  (names.zip audios).map (fun p => ⟨p.1, p.2⟩)

/-- `nodes_music = make_nodes(music_stimulus_name, music_stimulus_audio)`. -/
def nodes_music : List NodeDefinition :=
  make_nodes music_stimulus_name music_stimulus_audio

/-- `nodes_practice = make_nodes(practice_stimulus_name, practice_stimulus_audio)`. -/
def nodes_practice : List NodeDefinition :=
  make_nodes practice_stimulus_name practice_stimulus_audio

/-- The dict literal inside `TapTrialMusic.get_bot_response_media`. -/
def bot_response_media_table : List (String × String) :=
  [("music1psynet", "example_music_tapping_track_1.wav"),
   ("music2psynet", "example_music_tapping_track_2.wav"),
   ("music3psynet", "example_music_tapping_track_1.wav"),
   ("music4psynet", "example_music_tapping_track_2.wav"),
   ("music_practice1", "example_music_tapping_track_1.wav"),
   ("music_practice2", "example_music_tapping_track_2.wav")]

/-- `TapTrialMusic.get_bot_response_media`: a dict subscript on the trial's
`stim_name`; `none` models the `KeyError` raised on a name outside the
table. -/
def get_bot_response_media (stim_name : String) : Option String :=
  bot_response_media_table.lookup stim_name

/-- Structural induction principle for the nested inductive `Json`: the array
and object cases receive the property at every element / member value. -/
def Json.inductionOn (P : Json → Prop)
    (hnull : P Json.null) (hbool : ∀ b, P (Json.bool b))
    (hnum : ∀ n, P (Json.num n)) (hstr : ∀ s, P (Json.str s))
    (harr : ∀ xs, (∀ x ∈ xs, P x) → P (Json.arr xs))
    (hobj : ∀ kvs, (∀ kv ∈ kvs, P kv.2) → P (Json.obj kvs)) :
    ∀ v, P v
  | Json.null => hnull
  | Json.bool b => hbool b
  | Json.num n => hnum n
  | Json.str s => hstr s
  | Json.arr xs =>
      harr xs (fun x _ => Json.inductionOn P hnull hbool hnum hstr harr hobj x)
  | Json.obj kvs =>
      hobj kvs (fun kv _ => Json.inductionOn P hnull hbool hnum hstr harr hobj kv.2)
  termination_by v => sizeOf v
  decreasing_by
  · have hlt := List.sizeOf_lt_of_mem (by assumption : x ∈ xs)
    simp only [Json.arr.sizeOf_spec]
    omega
  · have hlt := List.sizeOf_lt_of_mem (by assumption : kv ∈ kvs)
    have hkv : sizeOf kv.2 < sizeOf kv := by
      obtain ⟨k, v⟩ := kv
      simp only [Prod.mk.sizeOf_spec]
      omega
    simp only [Json.obj.sizeOf_spec]
    omega

/-! # Theorems -/

/-! ## Cache behavior -/

theorem cacheLookup_cons {α β : Type} [DecidableEq α] (k : α) (b : β)
    (σ : List (α × β)) (a : α) :
    cacheLookup ((k, b) :: σ) a = if a = k then some b else cacheLookup σ a := rfl

theorem cachedCall_hit {α β : Type} [DecidableEq α] (f : α → β)
    (σ : List (α × β)) (a : α) (b : β) (h : cacheLookup σ a = some b) :
    cachedCall f σ a = ⟨b, σ, false⟩ := by
  simp [cachedCall, h]

theorem cachedCall_miss {α β : Type} [DecidableEq α] (f : α → β)
    (σ : List (α × β)) (a : α) (h : cacheLookup σ a = none) :
    cachedCall f σ a = ⟨f a, (a, f a) :: σ, true⟩ := by
  simp [cachedCall, h]

theorem runCachedCalls_cons {α β : Type} [DecidableEq α] (f : α → β)
    (σ : List (α × β)) (a : α) (as : List α) :
    runCachedCalls f σ (a :: as) =
      ((a, (cachedCall f σ a).recomputed) ::
          (runCachedCalls f (cachedCall f σ a).state as).1,
        (runCachedCalls f (cachedCall f σ a).state as).2) := rfl

theorem cacheLookup_cachedCall_self {α β : Type} [DecidableEq α] (f : α → β)
    (σ : List (α × β)) (a : α) :
    cacheLookup (cachedCall f σ a).state a = some (cachedCall f σ a).value := by
  cases h : cacheLookup σ a with
  | some b => rw [cachedCall_hit f σ a b h]; exact h
  | none => rw [cachedCall_miss f σ a h]; simp [cacheLookup]

theorem cacheLookup_cachedCall_other {α β : Type} [DecidableEq α] (f : α → β)
    (σ : List (α × β)) (a k : α) (hne : k ≠ a) :
    cacheLookup (cachedCall f σ a).state k = cacheLookup σ k := by
  cases h : cacheLookup σ a with
  | some b => rw [cachedCall_hit f σ a b h]
  | none => rw [cachedCall_miss f σ a h]; simp [cacheLookup, hne]

theorem countRecomputes_cons {α : Type} [DecidableEq α] (a k : α) (r : Bool)
    (tr : List (α × Bool)) :
    countRecomputes a ((k, r) :: tr) =
      countRecomputes a tr + if k = a ∧ r = true then 1 else 0 := by
  simp only [countRecomputes, List.countP_cons]
  by_cases hk : k = a <;> cases r <;> simp [hk]

/-- Once an argument is in the memo table, no later call sequence ever
recomputes it. -/
theorem countRecomputes_zero_of_hit {α β : Type} [DecidableEq α] (f : α → β)
    (a : α) : ∀ (as : List α) (σ : List (α × β)),
    (cacheLookup σ a).isSome →
    countRecomputes a (runCachedCalls f σ as).1 = 0 := by
  intro as
  induction as with
  | nil => intro σ _; rfl
  | cons b bs ih =>
    intro σ hσ
    obtain ⟨v, hv⟩ := Option.isSome_iff_exists.mp hσ
    rw [runCachedCalls_cons, countRecomputes_cons]
    by_cases hba : b = a
    · subst hba
      rw [cachedCall_hit f σ b v hv]
      rw [ih σ hσ]
      simp
    · have hpres : (cacheLookup (cachedCall f σ b).state a).isSome := by
        rw [cacheLookup_cachedCall_other f σ b a (fun h => hba h.symm)]
        simp [hv]
      rw [ih (cachedCall f σ b).state hpres]
      simp [hba]

/-- Over any call sequence, a given argument is recomputed at most once. -/
theorem countRecomputes_le_one {α β : Type} [DecidableEq α] (f : α → β)
    (a : α) : ∀ (as : List α) (σ : List (α × β)),
    countRecomputes a (runCachedCalls f σ as).1 ≤ 1 := by
  intro as
  induction as with
  | nil => intro σ; simp [runCachedCalls, countRecomputes]
  | cons b bs ih =>
    intro σ
    rw [runCachedCalls_cons, countRecomputes_cons]
    by_cases hba : b = a
    · subst hba
      cases hv : cacheLookup σ b with
      | some v =>
        rw [cachedCall_hit f σ b v hv]
        simpa using ih σ
      | none =>
        rw [cachedCall_miss f σ b hv]
        have hz := countRecomputes_zero_of_hit f b bs ((b, f b) :: σ)
          (by simp [cacheLookup])
        simp only [hz]
        simp
    · have := ih (cachedCall f σ b).state
      simp [hba]
      omega

/-- Coherence of a memo table with `f` — every stored result is `f` of its
key — is preserved by any call sequence. -/
theorem runCachedCalls_coherent {α β : Type} [DecidableEq α] (f : α → β) :
    ∀ (as : List α) (σ : List (α × β)),
    (∀ k b, cacheLookup σ k = some b → b = f k) →
    ∀ k b, cacheLookup (runCachedCalls f σ as).2 k = some b → b = f k := by
  intro as
  induction as with
  | nil => intro σ h; simpa [runCachedCalls] using h
  | cons c cs ih =>
    intro σ h
    rw [runCachedCalls_cons]
    apply ih
    intro k b hk
    cases hv : cacheLookup σ c with
    | some v =>
      rw [cachedCall_hit f σ c v hv] at hk
      exact h k b hk
    | none =>
      rw [cachedCall_miss f σ c hv, cacheLookup_cons] at hk
      by_cases hkc : k = c
      · subst hkc
        rw [if_pos rfl] at hk
        exact (Option.some.inj hk).symm
      · rw [if_neg hkc] at hk
        exact h k b hk

/-- A call against a coherent memo table returns `f` of its argument. -/
theorem cachedCall_value_coherent {α β : Type} [DecidableEq α] (f : α → β)
    (σ : List (α × β)) (a : α)
    (h : ∀ k b, cacheLookup σ k = some b → b = f k) :
    (cachedCall f σ a).value = f a := by
  cases hv : cacheLookup σ a with
  | some v => rw [cachedCall_hit f σ a v hv]; exact h a v hv
  | none => rw [cachedCall_miss f σ a hv]

/-- C3: a repeated call to `create_music_stim_with_repp` with the same
arguments returns the identical cached result, leaves the memo table
untouched and does not invoke the underlying preparation; and over any call
sequence of a process (memo table starting empty), the underlying
preparation runs at most once per stimulus key. -/
theorem create_music_stim_with_repp_cached_once {W : Type}
    (prep : String → String → W × Json × Json)
    (σ : List ((String × String) × (W × List Char))) (sn af : String) :
    ((create_music_stim_with_repp prep
        (create_music_stim_with_repp prep σ sn af).state sn af).value
      = (create_music_stim_with_repp prep σ sn af).value ∧
     (create_music_stim_with_repp prep
        (create_music_stim_with_repp prep σ sn af).state sn af).state
      = (create_music_stim_with_repp prep σ sn af).state ∧
     (create_music_stim_with_repp prep
        (create_music_stim_with_repp prep σ sn af).state sn af).recomputed
      = false) ∧
    ∀ calls : List (String × String),
      countRecomputes (sn, af)
        (runCachedCalls (create_music_stim_body prep) [] calls).1 ≤ 1 := by
  constructor
  · have hself := cacheLookup_cachedCall_self (create_music_stim_body prep) σ (sn, af)
    unfold create_music_stim_with_repp
    rw [cachedCall_hit (create_music_stim_body prep)
      (cachedCall (create_music_stim_body prep) σ (sn, af)).state (sn, af)
      (cachedCall (create_music_stim_body prep) σ (sn, af)).value hself]
    exact ⟨rfl, rfl, rfl⟩
  · intro calls
    exact countRecomputes_le_one (create_music_stim_body prep) (sn, af) calls []

/-- C4: stimulus preparation is deterministic — whatever two call histories a
process has accumulated since its (empty-cache) start, a call of
`create_music_stim_with_repp` on the same `(stim_name, audio_filename)`
returns the same `(stim_prepared, info)` value, namely the one preparation
result for those inputs. -/
theorem create_music_stim_with_repp_deterministic {W : Type}
    (prep : String → String → W × Json × Json)
    (calls1 calls2 : List (String × String)) (sn af : String) :
    (create_music_stim_with_repp prep
        (runCachedCalls (create_music_stim_body prep) [] calls1).2 sn af).value
    = (create_music_stim_with_repp prep
        (runCachedCalls (create_music_stim_body prep) [] calls2).2 sn af).value := by
  have hempty : ∀ k b, cacheLookup ([] : List ((String × String) × (W × List Char))) k = some b
      → b = create_music_stim_body prep k := by
    intro k b h
    exact absurd h (by simp [cacheLookup])
  have h1 := runCachedCalls_coherent (create_music_stim_body prep) calls1 [] hempty
  have h2 := runCachedCalls_coherent (create_music_stim_body prep) calls2 [] hempty
  unfold create_music_stim_with_repp
  rw [cachedCall_value_coherent (create_music_stim_body prep) _ (sn, af) h1,
    cachedCall_value_coherent (create_music_stim_body prep) _ (sn, af) h2]

/-- C6: whatever the process history, the audio file written by
`generate_music_stimulus_audio` and the info file then written by
`generate_music_stimulus_info` for the same node are the waveform and the
descriptor components of the one preparation result for that
`(stim_name, audio_filename)` key. -/
theorem stimulus_audio_info_single_preparation {W : Type}
    (prep : String → String → W × Json × Json)
    (calls : List (String × String)) (sn af : String) :
    (generate_music_stimulus_audio prep
        (runCachedCalls (create_music_stim_body prep) [] calls).2 sn af).1
      = (create_music_stim_body prep (sn, af)).1 ∧
    (generate_music_stimulus_info prep
        (generate_music_stimulus_audio prep
          (runCachedCalls (create_music_stim_body prep) [] calls).2 sn af).2 sn af).1
      = save_json_to_file ((create_music_stim_body prep (sn, af)).2) := by
  have hempty : ∀ k b, cacheLookup ([] : List ((String × String) × (W × List Char))) k = some b
      → b = create_music_stim_body prep k := by
    intro k b h
    exact absurd h (by simp [cacheLookup])
  have hσ := runCachedCalls_coherent (create_music_stim_body prep) calls [] hempty
  constructor
  · unfold generate_music_stimulus_audio create_music_stim_with_repp
    dsimp only
    rw [cachedCall_value_coherent (create_music_stim_body prep) _ (sn, af) hσ]
  · unfold generate_music_stimulus_info generate_music_stimulus_audio
      create_music_stim_with_repp
    dsimp only
    have hσ2 : ∀ k b, cacheLookup
        (cachedCall (create_music_stim_body prep)
          (runCachedCalls (create_music_stim_body prep) [] calls).2 (sn, af)).state k = some b
        → b = create_music_stim_body prep k := by
      intro k b h
      cases hv : cacheLookup (runCachedCalls (create_music_stim_body prep) [] calls).2 (sn, af) with
      | some v =>
        rw [cachedCall_hit _ _ _ v hv] at h
        exact hσ k b h
      | none =>
        rw [cachedCall_miss _ _ _ hv, cacheLookup_cons] at h
        by_cases hk : k = (sn, af)
        · subst hk
          rw [if_pos rfl] at h
          exact (Option.some.inj h).symm
        · rw [if_neg hk] at h
          exact hσ k b h
    rw [cachedCall_value_coherent (create_music_stim_body prep) _ (sn, af) hσ2]

/-! ## `analyze_recording` -/

/-- C1 counterexample: `self.get_info()` runs before the `try` block of
`analyze_recording`, so an exception raised while loading the stimulus info
propagates to the caller instead of becoming a verdict. -/
theorem analyze_recording_propagates_get_info_exception :
    analyze_recording (Except.error "OSError: could not read stimulus info")
        (fun _ => Except.ok (Json.null, Json.null, Json.obj []))
      = Except.error "OSError: could not read stimulus info" := rfl

/-- C1 as amended: when the stimulus info loads as a dict, `analyze_recording`
never propagates an exception — every exception raised inside the `try` block
(the REPP analysis and the verdict construction) is caught — and an analysis
exception yields the `failed=true` verdict with the `analysis_exception`
reason. -/
theorem analyze_recording_catches_analysis_exceptions :
    (∀ (kvs : List (List Char × Json))
       (da : Json → Except String (Json × Json × Json)),
       (analyze_recording (Except.ok (Json.obj kvs)) da).isOk = true) ∧
    (∀ (kvs : List (List Char × Json)) (e : String),
       analyze_recording (Except.ok (Json.obj kvs)) (fun _ => Except.error e)
         = Except.ok
            [("failed", Json.bool true),
             ("reason", Json.str (("analysis_exception: " ++ e).toList)),
             ("output", Json.null),
             ("analysis", Json.null),
             ("stim_name",
               (jsonLookup kvs "stim_name".toList).getD (Json.str "unknown".toList))]) := by
  constructor
  · intro kvs da
    rfl
  · intro kvs e
    rfl

/-- C2 counterexample: the exception branch formats the reason as
`f"analysis_exception: {str(e)}"`, so the verdict's reason is not the bare
string `"analysis_exception"`. -/
theorem analysis_exception_reason_not_bare :
    verdictField
        (analyze_recording (Except.ok (Json.obj []))
          (fun _ => Except.error "boom")) "reason"
      ≠ some (Json.str "analysis_exception".toList) := by
  have hv : verdictField
      (analyze_recording (Except.ok (Json.obj []))
        (fun _ => Except.error "boom")) "reason"
      = some (Json.str "analysis_exception: boom".toList) := rfl
  rw [hv]
  intro h
  have h1 := Option.some.inj h
  have h2 := Json.str.inj h1
  exact absurd h2 (by decide)

/-- C2 as amended: when an exception with message `e` is raised mid-analysis,
the verdict's reason is the string `"analysis_exception: "` followed by the
exception's message (so it carries the `analysis_exception` marker as a
prefix, not as the whole string). -/
theorem analysis_exception_reason_prefixed :
    ∀ (kvs : List (List Char × Json)) (e : String),
      verdictField
          (analyze_recording (Except.ok (Json.obj kvs))
            (fun _ => Except.error e)) "reason"
        = some (Json.str (("analysis_exception: " ++ e).toList)) := by
  intro kvs e
  rfl

theorem analyzeTryBlock_da_error (info sname : Json)
    (da : Json → Except String (Json × Json × Json)) (e : String)
    (h : da info = Except.error e) :
    analyzeTryBlock info sname da = Except.error e := by
  unfold analyzeTryBlock
  rw [h]
  rfl

theorem analyzeTryBlock_da_ok_obj (info sname out ana : Json)
    (ifs : List (List Char × Json))
    (da : Json → Except String (Json × Json × Json))
    (h : da info = Except.ok (out, ana, Json.obj ifs)) :
    analyzeTryBlock info sname da = Except.ok
      [("failed", (jsonLookup ifs "failed".toList).getD (Json.bool false)),
       ("reason", (jsonLookup ifs "reason".toList).getD Json.null),
       ("output", Json.str (dumps out)),
       ("analysis", Json.str (dumps ana)),
       ("stim_name", sname)] := by
  unfold analyzeTryBlock
  rw [h]
  rfl

theorem analyze_recording_obj_eq (kvs : List (List Char × Json))
    (da : Json → Except String (Json × Json × Json)) :
    analyze_recording (Except.ok (Json.obj kvs)) da = Except.ok
      (match analyzeTryBlock (Json.obj kvs)
          ((jsonLookup kvs "stim_name".toList).getD (Json.str "unknown".toList)) da with
       | Except.ok d => d
       | Except.error e =>
          [("failed", Json.bool true),
           ("reason", Json.str (("analysis_exception: " ++ e).toList)),
           ("output", Json.null),
           ("analysis", Json.null),
           ("stim_name",
             (jsonLookup kvs "stim_name".toList).getD (Json.str "unknown".toList))]) := rfl

theorem analyzeTryBlock_da_ok_not_obj (info sname out ana isf : Json)
    (da : Json → Except String (Json × Json × Json))
    (h : da info = Except.ok (out, ana, isf))
    (hno : ∀ ifs, isf ≠ Json.obj ifs) :
    analyzeTryBlock info sname da = Except.error "AttributeError" := by
  unfold analyzeTryBlock
  rw [h]
  cases isf with
  | obj ifs => exact absurd rfl (hno ifs)
  | null => rfl
  | bool b => rfl
  | num n => rfl
  | str s => rfl
  | arr xs => rfl

/-- C8: every verdict actually returned by `analyze_recording` is a dict with
exactly the keys `failed`, `reason`, `output`, `analysis`, `stim_name` in that
order; its `stim_name` is the descriptor's `stim_name` member, defaulting to
`"unknown"` when the descriptor lacks it; and in the exception branch both
`output` and `analysis` are `None`. -/
theorem analyze_recording_verdict_shape :
    ∀ (gi : Except String Json)
      (da : Json → Except String (Json × Json × Json)) (v : PyDict),
      analyze_recording gi da = Except.ok v →
      v.map Prod.fst = ["failed", "reason", "output", "analysis", "stim_name"] ∧
      (∀ kvs, gi = Except.ok (Json.obj kvs) →
        v.lookup "stim_name"
          = some ((jsonLookup kvs "stim_name".toList).getD (Json.str "unknown".toList))) ∧
      (∀ kvs e, gi = Except.ok (Json.obj kvs) →
        da (Json.obj kvs) = Except.error e →
        v.lookup "output" = some Json.null ∧ v.lookup "analysis" = some Json.null) := by
  intro gi da v hv
  cases gi with
  | error e => exact Except.noConfusion hv
  | ok info =>
    cases info with
    | null => exact Except.noConfusion hv
    | bool b => exact Except.noConfusion hv
    | num n => exact Except.noConfusion hv
    | str s => exact Except.noConfusion hv
    | arr xs => exact Except.noConfusion hv
    | obj kvs =>
      rw [analyze_recording_obj_eq] at hv
      cases hda : da (Json.obj kvs) with
      | error e =>
        rw [analyzeTryBlock_da_error (Json.obj kvs) _ da e hda] at hv
        have hv2 := Except.ok.inj hv
        refine ⟨?_, ?_, ?_⟩
        · rw [← hv2]; rfl
        · intro kvs2 hk
          obtain rfl : kvs = kvs2 := Json.obj.inj (Except.ok.inj hk)
          rw [← hv2]; rfl
        · intro kvs2 e2 hk _
          obtain rfl : kvs = kvs2 := Json.obj.inj (Except.ok.inj hk)
          rw [← hv2]; exact ⟨rfl, rfl⟩
      | ok r =>
        obtain ⟨out, ana, isf⟩ := r
        by_cases hobj : ∃ ifs, isf = Json.obj ifs
        · obtain ⟨ifs, rfl⟩ := hobj
          rw [analyzeTryBlock_da_ok_obj (Json.obj kvs) _ out ana ifs da hda] at hv
          have hv2 := Except.ok.inj hv
          refine ⟨?_, ?_, ?_⟩
          · rw [← hv2]; rfl
          · intro kvs2 hk
            obtain rfl : kvs = kvs2 := Json.obj.inj (Except.ok.inj hk)
            rw [← hv2]; rfl
          · intro kvs2 e2 hk hda2
            obtain rfl : kvs = kvs2 := Json.obj.inj (Except.ok.inj hk)
            rw [hda] at hda2
            exact absurd hda2 (by simp)
        · have hno : ∀ ifs, isf ≠ Json.obj ifs := by
            intro ifs h
            exact hobj ⟨ifs, h⟩
          rw [analyzeTryBlock_da_ok_not_obj (Json.obj kvs) _ out ana isf da hda hno] at hv
          have hv2 := Except.ok.inj hv
          refine ⟨?_, ?_, ?_⟩
          · rw [← hv2]; rfl
          · intro kvs2 hk
            obtain rfl : kvs = kvs2 := Json.obj.inj (Except.ok.inj hk)
            rw [← hv2]; rfl
          · intro kvs2 e2 hk hda2
            obtain rfl : kvs = kvs2 := Json.obj.inj (Except.ok.inj hk)
            rw [hda] at hda2
            exact absurd hda2 (by simp)

/-- Witness for C8 at a concrete input: an info dict without `stim_name` and
an analysis that raises. -/
theorem analyze_recording_verdict_shape_witness :
    ([("failed", Json.bool true),
      ("reason", Json.str ("analysis_exception: x".toList)),
      ("output", Json.null), ("analysis", Json.null),
      ("stim_name", Json.str "unknown".toList)] : PyDict).map Prod.fst
      = ["failed", "reason", "output", "analysis", "stim_name"] := by
  exact (analyze_recording_verdict_shape (Except.ok (Json.obj []))
    (fun _ => Except.error "x") _ rfl).1

/-- C9: in the non-exception branch, missing keys of the library's
`is_failed` dict default toward success — without a `failed` key the verdict
has `failed=False`, and without a `reason` key its reason is `None`. -/
theorem analyze_recording_is_failed_defaults :
    ∀ (kvs ifs : List (List Char × Json)) (out ana : Json),
      jsonLookup ifs "failed".toList = none →
      jsonLookup ifs "reason".toList = none →
      verdictField
          (analyze_recording (Except.ok (Json.obj kvs))
            (fun _ => Except.ok (out, ana, Json.obj ifs))) "failed"
        = some (Json.bool false) ∧
      verdictField
          (analyze_recording (Except.ok (Json.obj kvs))
            (fun _ => Except.ok (out, ana, Json.obj ifs))) "reason"
        = some Json.null := by
  intro kvs ifs out ana hf hr
  have hred : analyze_recording (Except.ok (Json.obj kvs))
      (fun _ => Except.ok (out, ana, Json.obj ifs)) = Except.ok
      [("failed", (jsonLookup ifs "failed".toList).getD (Json.bool false)),
       ("reason", (jsonLookup ifs "reason".toList).getD Json.null),
       ("output", Json.str (dumps out)),
       ("analysis", Json.str (dumps ana)),
       ("stim_name",
         (jsonLookup kvs "stim_name".toList).getD (Json.str "unknown".toList))] := by
    rw [analyze_recording_obj_eq,
      analyzeTryBlock_da_ok_obj (Json.obj kvs) _ out ana ifs _ rfl]
  rw [hred]
  unfold verdictField
  rw [hf, hr]
  exact ⟨rfl, rfl⟩

/-- Witness for C9 at a concrete input: an empty `is_failed` dict. -/
theorem analyze_recording_is_failed_defaults_witness :
    jsonLookup [] "failed".toList = none ∧
    jsonLookup [] "reason".toList = none ∧
    (verdictField
        (analyze_recording (Except.ok (Json.obj []))
          (fun _ => Except.ok (Json.null, Json.null, Json.obj []))) "failed"
      = some (Json.bool false) ∧
     verdictField
        (analyze_recording (Except.ok (Json.obj []))
          (fun _ => Except.ok (Json.null, Json.null, Json.obj []))) "reason"
      = some Json.null) :=
  ⟨rfl, rfl, analyze_recording_is_failed_defaults [] [] Json.null Json.null rfl rfl⟩

/-! ## The alignment scorer (C7) -/

theorem greedyMatches_no_onsets (tol : ℚ) :
    ∀ expected : List ℚ, greedyMatches tol expected []
      = expected.map (fun e => (e, none)) := by
  intro expected
  induction expected with
  | nil => rfl
  | cons e es ih =>
    simp only [greedyMatches, nearestWithin, List.filter_nil, List.foldl_nil, List.map_cons]
    rw [ih]

/-- C7: against an empty detected-onset set and a non-empty expected-onset
sequence, the verdict fails, its reason names the absence of taps, and every
expected onset is a miss. -/
theorem score_empty_onsets_fails :
    ∀ (expected : List ℚ) (tol minRate : ℚ),
      expected ≠ [] → 0 < minRate →
      (score [] expected tol minRate).failed = true ∧
      (score [] expected tol minRate).reason = some "no_taps_detected" ∧
      (score [] expected tol minRate).perOnset = expected.map (fun e => (e, none)) := by
  intro expected tol minRate hne hpos
  have hms : greedyMatches tol expected [] = expected.map (fun e => (e, none)) :=
    greedyMatches_no_onsets tol expected
  have hcount : (greedyMatches tol expected []).countP (fun p => p.2.isSome) = 0 := by
    rw [hms]
    induction expected with
    | nil => rfl
    | cons e es ih => simp [List.countP_cons, ih]
  have hlen : expected.length ≠ 0 := by
    intro h
    exact hne (List.length_eq_zero.mp h)
  have hrate : (if expected.length = 0 then (1 : ℚ)
      else ((greedyMatches tol expected []).countP (fun p => p.2.isSome) : ℚ)
        / (expected.length : ℚ)) = 0 := by
    rw [if_neg hlen, hcount]
    simp
  refine ⟨?_, ?_, ?_⟩
  · unfold score
    dsimp only
    rw [hrate]
    exact decide_eq_true hpos
  · unfold score
    dsimp only
    rw [hrate, if_pos hpos]
    rfl
  · unfold score
    dsimp only
    exact hms

/-- Witness for C7 at a concrete input: expected onsets at 1s and 2s,
tolerance 150ms, minimum match rate one half. -/
theorem score_empty_onsets_fails_witness :
    ([(1 : ℚ), 2] ≠ []) ∧ (0 < (1 : ℚ) / 2) ∧
    ((score [] [(1 : ℚ), 2] (3 / 20) (1 / 2)).failed = true ∧
     (score [] [(1 : ℚ), 2] (3 / 20) (1 / 2)).reason = some "no_taps_detected" ∧
     (score [] [(1 : ℚ), 2] (3 / 20) (1 / 2)).perOnset
       = [(1 : ℚ), 2].map (fun e => (e, none))) :=
  ⟨by decide, by norm_num,
    score_empty_onsets_fails [(1 : ℚ), 2] (3 / 20) (1 / 2) (by decide) (by norm_num)⟩

/-! ## Bot response media (C10) -/

/-- C10: the bot-media table answers exactly the six configured stimulus
names — any other `stim_name` raises `KeyError` — and every node built by
`make_nodes` from the configured name lists carries a `stim_name` inside that
domain. -/
theorem get_bot_response_media_domain :
    (∀ s : String, (get_bot_response_media s).isSome = true ↔
        s ∈ ["music1psynet", "music2psynet", "music3psynet", "music4psynet",
             "music_practice1", "music_practice2"]) ∧
    ((nodes_music ++ nodes_practice).all
        (fun n => (get_bot_response_media n.stim_name).isSome) = true) := by
  constructor
  · intro s
    unfold get_bot_response_media bot_response_media_table
    by_cases h1 : s = "music1psynet"
    · subst h1; decide
    · by_cases h2 : s = "music2psynet"
      · subst h2; decide
      · by_cases h3 : s = "music3psynet"
        · subst h3; decide
        · by_cases h4 : s = "music4psynet"
          · subst h4; decide
          · by_cases h5 : s = "music_practice1"
            · subst h5; decide
            · by_cases h6 : s = "music_practice2"
              · subst h6; decide
              · have e1 : (s == "music1psynet") = false := beq_eq_false_iff_ne.mpr h1
                have e2 : (s == "music2psynet") = false := beq_eq_false_iff_ne.mpr h2
                have e3 : (s == "music3psynet") = false := beq_eq_false_iff_ne.mpr h3
                have e4 : (s == "music4psynet") = false := beq_eq_false_iff_ne.mpr h4
                have e5 : (s == "music_practice1") = false := beq_eq_false_iff_ne.mpr h5
                have e6 : (s == "music_practice2") = false := beq_eq_false_iff_ne.mpr h6
                simp [List.lookup, e1, e2, e3, e4, e5, e6, h1, h2, h3, h4, h5, h6]
  · decide

/-! ## Round-trip of the JSON model (toward C5) -/

theorem digitChar_toNat (d : Nat) (h : d < 10) : (Nat.digitChar d).toNat = 48 + d := by
  interval_cases d <;> rfl

theorem isDigitChar_digitChar (d : Nat) (h : d < 10) :
    isDigitChar (Nat.digitChar d) = true := by
  interval_cases d <;> rfl

theorem natDigitsChars_all_digits :
    ∀ n : Nat, ∀ c ∈ natDigitsChars n, isDigitChar c = true := by
  intro n
  induction n using Nat.strong_induction_on with
  | _ n ih =>
    intro c hc
    rw [natDigitsChars] at hc
    by_cases h : n < 10
    · rw [dif_pos h] at hc
      simp only [List.mem_singleton] at hc
      subst hc
      exact isDigitChar_digitChar n h
    · rw [dif_neg h] at hc
      rw [List.mem_append] at hc
      cases hc with
      | inl h1 => exact ih (n / 10) (Nat.div_lt_self (by omega) (by omega)) c h1
      | inr h2 =>
        simp only [List.mem_singleton] at h2
        subst h2
        exact isDigitChar_digitChar (n % 10) (Nat.mod_lt n (by omega))

theorem natDigitsChars_ne_nil (n : Nat) : natDigitsChars n ≠ [] := by
  rw [natDigitsChars]
  by_cases h : n < 10
  · rw [dif_pos h]; simp
  · rw [dif_neg h]; simp

theorem digits_foldl (n : Nat) : ∀ a : Nat,
    (natDigitsChars n).foldl (fun a c => 10 * a + (c.toNat - 48)) a
      = a * 10 ^ (natDigitsChars n).length + n := by
  induction n using Nat.strong_induction_on with
  | _ n ih =>
    intro a
    rw [natDigitsChars]
    by_cases h : n < 10
    · rw [dif_pos h]
      simp only [List.foldl_cons, List.foldl_nil, List.length_singleton, pow_one]
      rw [digitChar_toNat n h]
      omega
    · rw [dif_neg h]
      rw [List.foldl_append]
      rw [ih (n / 10) (Nat.div_lt_self (by omega) (by omega)) a]
      simp only [List.foldl_cons, List.foldl_nil, List.length_append,
        List.length_singleton]
      rw [digitChar_toNat (n % 10) (Nat.mod_lt n (by omega))]
      have h2 := Nat.div_add_mod n 10
      rw [Nat.pow_succ, Nat.mul_add]
      ring_nf
      omega

theorem takeWhile_append_all {α : Type} (p : α → Bool) :
    ∀ (l1 l2 : List α), (∀ c ∈ l1, p c = true) →
      (l1 ++ l2).takeWhile p = l1 ++ l2.takeWhile p := by
  intro l1
  induction l1 with
  | nil => intro l2 _; simp
  | cons c cs ih =>
    intro l2 h
    simp only [List.cons_append, List.takeWhile_cons]
    rw [h c (by simp)]
    simp only [if_true]
    rw [ih l2 (fun x hx => h x (by simp [hx]))]

theorem dropWhile_append_all {α : Type} (p : α → Bool) :
    ∀ (l1 l2 : List α), (∀ c ∈ l1, p c = true) →
      (l1 ++ l2).dropWhile p = l2.dropWhile p := by
  intro l1
  induction l1 with
  | nil => intro l2 _; simp
  | cons c cs ih =>
    intro l2 h
    simp only [List.cons_append, List.dropWhile_cons]
    rw [h c (by simp)]
    simp only [if_true]
    exact ih l2 (fun x hx => h x (by simp [hx]))

theorem parseNat_natDigitsChars (n : Nat) (rest : List Char)
    (hnd : noDigitAhead rest = true) :
    parseNat (natDigitsChars n ++ rest) = some (n, rest) := by
  have hall := natDigitsChars_all_digits n
  have htw2 : rest.takeWhile isDigitChar = [] := by
    cases rest with
    | nil => rfl
    | cons c cs =>
      simp only [noDigitAhead, Bool.not_eq_true'] at hnd
      simp [List.takeWhile_cons, hnd]
  have hdw2 : rest.dropWhile isDigitChar = rest := by
    cases rest with
    | nil => rfl
    | cons c cs =>
      simp only [noDigitAhead, Bool.not_eq_true'] at hnd
      simp [List.dropWhile_cons, hnd]
  have htw : (natDigitsChars n ++ rest).takeWhile isDigitChar = natDigitsChars n := by
    rw [takeWhile_append_all isDigitChar _ _ hall, htw2, List.append_nil]
  have hdw : (natDigitsChars n ++ rest).dropWhile isDigitChar = rest := by
    rw [dropWhile_append_all isDigitChar _ _ hall, hdw2]
  unfold parseNat
  rw [htw, hdw]
  cases hne : natDigitsChars n with
  | nil => exact absurd hne (natDigitsChars_ne_nil n)
  | cons d ds =>
    have hval : digitsToNat (d :: ds) = n := by
      rw [← hne]
      unfold digitsToNat
      have := digits_foldl n 0
      simpa using this
    simp [hval]

theorem parseStringBody_escapeChars :
    ∀ (s rest : List Char),
      parseStringBody (escapeChars s ++ '"' :: rest) = some (s, rest) := by
  intro s
  induction s with
  | nil =>
    intro rest
    show parseStringBody ([] ++ '"' :: rest) = some ([], rest)
    rw [List.nil_append, parseStringBody.eq_def]
    dsimp only
    rw [if_pos rfl]
  | cons c cs ih =>
    intro rest
    by_cases hq : c = '"'
    · subst hq
      have h1 : escapeChars ('"' :: cs) ++ '"' :: rest
          = '\\' :: '"' :: (escapeChars cs ++ '"' :: rest) := by
        simp [escapeChars, escapeChar]
      rw [h1, parseStringBody.eq_def]
      dsimp only
      rw [if_neg (by decide : ¬('\\' : Char) = '"'), if_pos rfl]
      rw [ih rest]
      simp [unescapeChar]
    · by_cases hb : c = '\\'
      · subst hb
        have h1 : escapeChars ('\\' :: cs) ++ '"' :: rest
            = '\\' :: '\\' :: (escapeChars cs ++ '"' :: rest) := by
          simp [escapeChars, escapeChar]
        rw [h1, parseStringBody.eq_def]
        dsimp only
        rw [if_neg (by decide : ¬('\\' : Char) = '"'), if_pos rfl]
        rw [ih rest]
        simp [unescapeChar]
      · have h1 : escapeChars (c :: cs) ++ '"' :: rest
            = c :: (escapeChars cs ++ '"' :: rest) := by
          simp [escapeChars, escapeChar, hq, hb]
        rw [h1, parseStringBody.eq_def]
        dsimp only
        rw [if_neg hq, if_neg hb, ih rest]

theorem skipSpaces_cons_of_ne (c : Char) (h1 : c ≠ ' ') (h2 : c ≠ '\t')
    (h3 : c ≠ '\n') (h4 : c ≠ '\r') :
    ∀ u : List Char, skipSpaces (c :: u) = c :: u := by
  intro u
  unfold skipSpaces
  rw [List.dropWhile_cons]
  simp [h1, h2, h3, h4]

theorem skipSpaces_cons_digit (c : Char) (h : isDigitChar c = true) :
    ∀ u : List Char, skipSpaces (c :: u) = c :: u :=
  skipSpaces_cons_of_ne c
    (fun he => absurd (he ▸ h) (by decide))
    (fun he => absurd (he ▸ h) (by decide))
    (fun he => absurd (he ▸ h) (by decide))
    (fun he => absurd (he ▸ h) (by decide))

theorem parseJson_cons_space (fuel : Nat) (cs : List Char) :
    parseJson fuel (' ' :: cs) = parseJson fuel cs := by
  cases fuel with
  | zero => simp [parseJson]
  | succ f =>
    simp only [parseJson]
    have h : skipSpaces (' ' :: cs) = skipSpaces cs := by
      unfold skipSpaces
      rw [List.dropWhile_cons]
      simp
    rw [h]

theorem parseItems_cons_space (fuel : Nat) (cs : List Char) :
    parseItems fuel (' ' :: cs) = parseItems fuel cs := by
  cases fuel with
  | zero => simp [parseItems]
  | succ f =>
    simp only [parseItems]
    rw [parseJson_cons_space]

theorem parseMembers_cons_space (fuel : Nat) (cs : List Char) :
    parseMembers fuel (' ' :: cs) = parseMembers fuel cs := by
  cases fuel with
  | zero => simp [parseMembers]
  | succ f =>
    simp only [parseMembers]
    have : skipSpaces (' ' :: cs) = skipSpaces cs := by
      unfold skipSpaces
      rw [List.dropWhile_cons]
      simp
    rw [this]

theorem dumps_head_spec : ∀ v : Json, ∃ c t, dumps v = c :: t ∧
    (∀ u : List Char, skipSpaces (c :: u) = c :: u) ∧ c ≠ ']' ∧ c ≠ '\x7d' := by
  intro v
  cases v with
  | null =>
    exact ⟨'n', ['u', 'l', 'l'], by simp [dumps],
      skipSpaces_cons_of_ne 'n' (by decide) (by decide) (by decide) (by decide),
      by decide, by decide⟩
  | bool b =>
    cases b with
    | true =>
      exact ⟨'t', ['r', 'u', 'e'], by simp [dumps],
        skipSpaces_cons_of_ne 't' (by decide) (by decide) (by decide) (by decide),
        by decide, by decide⟩
    | false =>
      exact ⟨'f', ['a', 'l', 's', 'e'], by simp [dumps],
        skipSpaces_cons_of_ne 'f' (by decide) (by decide) (by decide) (by decide),
        by decide, by decide⟩
  | num i =>
    by_cases hneg : i < 0
    · refine ⟨'-', natDigitsChars i.natAbs, ?_,
        skipSpaces_cons_of_ne '-' (by decide) (by decide) (by decide) (by decide),
        by decide, by decide⟩
      simp [dumps, intChars, hneg]
    · cases hne : natDigitsChars i.natAbs with
      | nil => exact absurd hne (natDigitsChars_ne_nil i.natAbs)
      | cons d ds =>
        have hd : isDigitChar d = true :=
          natDigitsChars_all_digits i.natAbs d (by rw [hne]; simp)
        refine ⟨d, ds, ?_, skipSpaces_cons_digit d hd,
          fun he => absurd (he ▸ hd) (by decide),
          fun he => absurd (he ▸ hd) (by decide)⟩
        simp [dumps, intChars, hneg, hne]
  | str s =>
    exact ⟨'"', escapeChars s ++ ['"'], by simp [dumps],
      skipSpaces_cons_of_ne '"' (by decide) (by decide) (by decide) (by decide),
      by decide, by decide⟩
  | arr xs =>
    exact ⟨'[', dumpsItems xs ++ [']'], by simp [dumps],
      skipSpaces_cons_of_ne '[' (by decide) (by decide) (by decide) (by decide),
      by decide, by decide⟩
  | obj kvs =>
    exact ⟨'\x7b', dumpsMembers kvs ++ ['\x7d'], by simp [dumps],
      skipSpaces_cons_of_ne '\x7b' (by decide) (by decide) (by decide) (by decide),
      by decide, by decide⟩

theorem dumpsItems_single (x : Json) : dumpsItems [x] = dumps x := by
  simp [dumpsItems]

theorem dumpsItems_cons2 (x y : Json) (ys : List Json) :
    dumpsItems (x :: y :: ys) = dumps x ++ ',' :: ' ' :: dumpsItems (y :: ys) := by
  simp [dumpsItems]

theorem dumpsMembers_single (k : List Char) (v : Json) :
    dumpsMembers [(k, v)] = '"' :: (escapeChars k ++ '"' :: ':' :: ' ' :: dumps v) := by
  simp [dumpsMembers]

theorem dumpsMembers_cons2 (k : List Char) (v : Json) (m : List Char × Json)
    (ms : List (List Char × Json)) :
    dumpsMembers ((k, v) :: m :: ms)
      = ('"' :: (escapeChars k ++ '"' :: ':' :: ' ' :: dumps v))
          ++ ',' :: ' ' :: dumpsMembers (m :: ms) := by
  simp [dumpsMembers]

theorem noDigitAhead_cons_of_not (c : Char) (h : isDigitChar c = false)
    (u : List Char) : noDigitAhead (c :: u) = true := by
  simp [noDigitAhead, h]

theorem parseItems_dumpsItems :
    ∀ (xs : List Json),
      (∀ x ∈ xs, ∀ (fuel : Nat) (rest : List Char), fuelJson x ≤ fuel →
        noDigitAhead rest = true → parseJson fuel (dumps x ++ rest) = some (x, rest)) →
      ∀ (fuel : Nat) (rest : List Char), xs ≠ [] → fuelItems xs ≤ fuel →
      parseItems fuel (dumpsItems xs ++ ']' :: rest) = some (xs, rest) := by
  intro xs
  induction xs with
  | nil => intro _ fuel rest hne _; exact absurd rfl hne
  | cons x xs ih =>
    intro hIH fuel rest _ hfuel
    have hfuel2 : 1 + fuelJson x + fuelItems xs ≤ fuel := by
      simpa [fuelItems] using hfuel
    cases fuel with
    | zero => omega
    | succ g =>
      simp only [parseItems]
      cases xs with
      | nil =>
        rw [dumpsItems_single]
        rw [hIH x (by simp) g (']' :: rest) (by omega)
          (noDigitAhead_cons_of_not ']' (by decide) rest)]
        dsimp only
        rw [skipSpaces_cons_of_ne ']' (by decide) (by decide) (by decide) (by decide)]
        dsimp only
        rw [if_neg (by decide), if_pos rfl]
      | cons y ys =>
        rw [dumpsItems_cons2, List.append_assoc]
        simp only [List.cons_append]
        rw [hIH x (by simp) g (',' :: ' ' :: (dumpsItems (y :: ys) ++ ']' :: rest))
          (by omega) (noDigitAhead_cons_of_not ',' (by decide) _)]
        dsimp only
        rw [skipSpaces_cons_of_ne ',' (by decide) (by decide) (by decide) (by decide)]
        dsimp only
        rw [if_pos rfl]
        rw [parseItems_cons_space]
        rw [ih (fun z hz => hIH z (by simp [hz])) g rest (by simp) (by
          simp only [fuelItems] at hfuel2 ⊢
          omega)]

theorem parseMembers_dumpsMembers :
    ∀ (kvs : List (List Char × Json)),
      (∀ kv ∈ kvs, ∀ (fuel : Nat) (rest : List Char), fuelJson kv.2 ≤ fuel →
        noDigitAhead rest = true → parseJson fuel (dumps kv.2 ++ rest) = some (kv.2, rest)) →
      ∀ (fuel : Nat) (rest : List Char), kvs ≠ [] → fuelMembers kvs ≤ fuel →
      parseMembers fuel (dumpsMembers kvs ++ '\x7d' :: rest) = some (kvs, rest) := by
  intro kvs
  induction kvs with
  | nil => intro _ fuel rest hne _; exact absurd rfl hne
  | cons kv kvs ih =>
    obtain ⟨k, v⟩ := kv
    intro hIH fuel rest _ hfuel
    have hfuel2 : 1 + fuelJson v + fuelMembers kvs ≤ fuel := by
      simpa [fuelMembers] using hfuel
    cases fuel with
    | zero => omega
    | succ g =>
      simp only [parseMembers]
      cases kvs with
      | nil =>
        rw [dumpsMembers_single]
        rw [show ('"' :: (escapeChars k ++ '"' :: ':' :: ' ' :: dumps v)) ++ '\x7d' :: rest
            = '"' :: (escapeChars k ++ '"' :: ':' :: ' ' :: (dumps v ++ '\x7d' :: rest)) from by
          simp]
        rw [skipSpaces_cons_of_ne '"' (by decide) (by decide) (by decide) (by decide)]
        dsimp only
        rw [if_pos rfl]
        rw [parseStringBody_escapeChars k (':' :: ' ' :: (dumps v ++ '\x7d' :: rest))]
        dsimp only
        rw [skipSpaces_cons_of_ne ':' (by decide) (by decide) (by decide) (by decide)]
        dsimp only
        rw [if_pos rfl]
        rw [parseJson_cons_space]
        rw [hIH (k, v) (by simp) g ('\x7d' :: rest) (by show fuelJson v ≤ g; omega)
          (noDigitAhead_cons_of_not '\x7d' (by decide) rest)]
        dsimp only
        rw [skipSpaces_cons_of_ne '\x7d' (by decide) (by decide) (by decide) (by decide)]
        dsimp only
        rw [if_neg (by decide), if_pos rfl]
      | cons m ms =>
        rw [dumpsMembers_cons2]
        rw [show (('"' :: (escapeChars k ++ '"' :: ':' :: ' ' :: dumps v))
              ++ ',' :: ' ' :: dumpsMembers (m :: ms)) ++ '\x7d' :: rest
            = '"' :: (escapeChars k ++ '"' :: ':' :: ' '
                :: (dumps v ++ ',' :: ' ' :: (dumpsMembers (m :: ms) ++ '\x7d' :: rest))) from by
          simp]
        rw [skipSpaces_cons_of_ne '"' (by decide) (by decide) (by decide) (by decide)]
        dsimp only
        rw [if_pos rfl]
        rw [parseStringBody_escapeChars k
          (':' :: ' ' :: (dumps v ++ ',' :: ' ' :: (dumpsMembers (m :: ms) ++ '\x7d' :: rest)))]
        dsimp only
        rw [skipSpaces_cons_of_ne ':' (by decide) (by decide) (by decide) (by decide)]
        dsimp only
        rw [if_pos rfl]
        rw [parseJson_cons_space]
        rw [hIH (k, v) (by simp) g
          (',' :: ' ' :: (dumpsMembers (m :: ms) ++ '\x7d' :: rest)) (by show fuelJson v ≤ g; omega)
          (noDigitAhead_cons_of_not ',' (by decide) _)]
        dsimp only
        rw [skipSpaces_cons_of_ne ',' (by decide) (by decide) (by decide) (by decide)]
        dsimp only
        rw [if_pos rfl]
        rw [parseMembers_cons_space]
        rw [ih (fun z hz => hIH z (by simp [hz])) g rest (by simp) (by
          simp only [fuelMembers] at hfuel2 ⊢
          omega)]

theorem parse_dumps :
    ∀ (v : Json) (fuel : Nat) (rest : List Char), fuelJson v ≤ fuel →
      noDigitAhead rest = true → parseJson fuel (dumps v ++ rest) = some (v, rest) := by
  intro v
  induction v using Json.inductionOn with
  | hnull =>
    intro fuel rest hf _
    cases fuel with
    | zero => simp [fuelJson] at hf
    | succ f =>
      simp only [parseJson]
      rw [show dumps Json.null ++ rest = 'n' :: 'u' :: 'l' :: 'l' :: rest from by
        simp [dumps]]
      rw [skipSpaces_cons_of_ne 'n' (by decide) (by decide) (by decide) (by decide)]
      rw [parseJsonCore.eq_def]
      dsimp only
      rw [if_pos rfl]
      simp [dropLit]
  | hbool b =>
    intro fuel rest hf _
    cases fuel with
    | zero => simp [fuelJson] at hf
    | succ f =>
      simp only [parseJson]
      cases b with
      | true =>
        rw [show dumps (Json.bool true) ++ rest = 't' :: 'r' :: 'u' :: 'e' :: rest from by
          simp [dumps]]
        rw [skipSpaces_cons_of_ne 't' (by decide) (by decide) (by decide) (by decide)]
        rw [parseJsonCore.eq_def]
        dsimp only
        rw [if_neg (by decide), if_pos rfl]
        simp [dropLit]
      | false =>
        rw [show dumps (Json.bool false) ++ rest = 'f' :: 'a' :: 'l' :: 's' :: 'e' :: rest from by
          simp [dumps]]
        rw [skipSpaces_cons_of_ne 'f' (by decide) (by decide) (by decide) (by decide)]
        rw [parseJsonCore.eq_def]
        dsimp only
        rw [if_neg (by decide), if_neg (by decide), if_pos rfl]
        simp [dropLit]
  | hnum i =>
    intro fuel rest hf hnd
    cases fuel with
    | zero => simp [fuelJson] at hf
    | succ f =>
      simp only [parseJson]
      by_cases hneg : i < 0
      · rw [show dumps (Json.num i) ++ rest = '-' :: (natDigitsChars i.natAbs ++ rest) from by
          simp [dumps, intChars, hneg]]
        rw [skipSpaces_cons_of_ne '-' (by decide) (by decide) (by decide) (by decide)]
        rw [parseJsonCore.eq_def]
        dsimp only
        rw [if_neg (by decide), if_neg (by decide), if_neg (by decide), if_neg (by decide),
          if_neg (by decide), if_neg (by decide), if_pos rfl]
        rw [parseNat_natDigitsChars i.natAbs rest hnd]
        dsimp only
        have hi : -(i.natAbs : Int) = i := by omega
        rw [hi]
      · cases hne : natDigitsChars i.natAbs with
        | nil => exact absurd hne (natDigitsChars_ne_nil _)
        | cons d ds =>
          have hd : isDigitChar d = true :=
            natDigitsChars_all_digits i.natAbs d (by rw [hne]; simp)
          rw [show dumps (Json.num i) ++ rest = d :: (ds ++ rest) from by
            simp [dumps, intChars, hneg, hne]]
          rw [skipSpaces_cons_digit d hd]
          rw [parseJsonCore.eq_def]
          dsimp only
          rw [if_neg (fun he => absurd (he ▸ hd) (by decide)),
            if_neg (fun he => absurd (he ▸ hd) (by decide)),
            if_neg (fun he => absurd (he ▸ hd) (by decide)),
            if_neg (fun he => absurd (he ▸ hd) (by decide)),
            if_neg (fun he => absurd (he ▸ hd) (by decide)),
            if_neg (fun he => absurd (he ▸ hd) (by decide)),
            if_neg (fun he => absurd (he ▸ hd) (by decide))]
          rw [show d :: (ds ++ rest) = natDigitsChars i.natAbs ++ rest from by
            rw [hne]; rfl]
          rw [parseNat_natDigitsChars i.natAbs rest hnd]
          dsimp only
          have hi : (i.natAbs : Int) = i := by omega
          rw [hi]
  | hstr s =>
    intro fuel rest hf _
    cases fuel with
    | zero => simp [fuelJson] at hf
    | succ f =>
      simp only [parseJson]
      rw [show dumps (Json.str s) ++ rest = '"' :: (escapeChars s ++ '"' :: rest) from by
        simp [dumps]]
      rw [skipSpaces_cons_of_ne '"' (by decide) (by decide) (by decide) (by decide)]
      rw [parseJsonCore.eq_def]
      dsimp only
      rw [if_neg (by decide), if_neg (by decide), if_neg (by decide), if_pos rfl]
      rw [parseStringBody_escapeChars s rest]
  | harr xs ihx =>
    intro fuel rest hf _
    cases fuel with
    | zero => simp [fuelJson] at hf
    | succ f =>
      simp only [parseJson]
      cases xs with
      | nil =>
        rw [show dumps (Json.arr []) ++ rest = '[' :: ']' :: rest from by
          simp [dumps, dumpsItems]]
        rw [skipSpaces_cons_of_ne '[' (by decide) (by decide) (by decide) (by decide)]
        rw [parseJsonCore.eq_def]
        dsimp only
        rw [if_neg (by decide), if_neg (by decide), if_neg (by decide), if_neg (by decide),
          if_pos rfl]
        rw [skipSpaces_cons_of_ne ']' (by decide) (by decide) (by decide) (by decide)]
        dsimp only
        rw [if_pos rfl]
      | cons x xs2 =>
        rw [show dumps (Json.arr (x :: xs2)) ++ rest
            = '[' :: (dumpsItems (x :: xs2) ++ ']' :: rest) from by
          simp [dumps]]
        rw [skipSpaces_cons_of_ne '[' (by decide) (by decide) (by decide) (by decide)]
        rw [parseJsonCore.eq_def]
        dsimp only
        rw [if_neg (by decide), if_neg (by decide), if_neg (by decide), if_neg (by decide),
          if_pos rfl]
        obtain ⟨c0, t0, hx0, hsk, hne1, _⟩ := dumps_head_spec x
        have hshape : ∃ u, dumpsItems (x :: xs2) ++ ']' :: rest = c0 :: u := by
          cases xs2 with
          | nil =>
            exact ⟨t0 ++ ']' :: rest, by rw [dumpsItems_single, hx0]; simp⟩
          | cons y ys =>
            exact ⟨(t0 ++ ',' :: ' ' :: dumpsItems (y :: ys)) ++ ']' :: rest, by
              rw [dumpsItems_cons2, hx0]; simp⟩
        obtain ⟨u, hu⟩ := hshape
        rw [hu, hsk u]
        dsimp only
        rw [if_neg hne1]
        rw [← hu]
        rw [parseItems_dumpsItems (x :: xs2) ihx f rest (by simp) (by
          simp only [fuelJson] at hf
          omega)]
  | hobj kvs ihm =>
    intro fuel rest hf _
    cases fuel with
    | zero => simp [fuelJson] at hf
    | succ f =>
      simp only [parseJson]
      cases kvs with
      | nil =>
        rw [show dumps (Json.obj []) ++ rest = '\x7b' :: '\x7d' :: rest from by
          simp [dumps, dumpsMembers]]
        rw [skipSpaces_cons_of_ne '\x7b' (by decide) (by decide) (by decide) (by decide)]
        rw [parseJsonCore.eq_def]
        dsimp only
        rw [if_neg (by decide), if_neg (by decide), if_neg (by decide), if_neg (by decide),
          if_neg (by decide), if_pos rfl]
        rw [skipSpaces_cons_of_ne '\x7d' (by decide) (by decide) (by decide) (by decide)]
        dsimp only
        rw [if_pos rfl]
      | cons kv kvs2 =>
        obtain ⟨k, v⟩ := kv
        rw [show dumps (Json.obj ((k, v) :: kvs2)) ++ rest
            = '\x7b' :: (dumpsMembers ((k, v) :: kvs2) ++ '\x7d' :: rest) from by
          simp [dumps]]
        rw [skipSpaces_cons_of_ne '\x7b' (by decide) (by decide) (by decide) (by decide)]
        rw [parseJsonCore.eq_def]
        dsimp only
        rw [if_neg (by decide), if_neg (by decide), if_neg (by decide), if_neg (by decide),
          if_neg (by decide), if_pos rfl]
        have hshape : ∃ u, dumpsMembers ((k, v) :: kvs2) ++ '\x7d' :: rest = '"' :: u := by
          cases kvs2 with
          | nil =>
            exact ⟨(escapeChars k ++ '"' :: ':' :: ' ' :: dumps v) ++ '\x7d' :: rest, by
              rw [dumpsMembers_single]; simp⟩
          | cons m ms =>
            exact ⟨((escapeChars k ++ '"' :: ':' :: ' ' :: dumps v)
                ++ ',' :: ' ' :: dumpsMembers (m :: ms)) ++ '\x7d' :: rest, by
              rw [dumpsMembers_cons2]; simp⟩
        obtain ⟨u, hu⟩ := hshape
        rw [hu]
        rw [skipSpaces_cons_of_ne '"' (by decide) (by decide) (by decide) (by decide)]
        dsimp only
        rw [if_neg (by decide)]
        rw [← hu]
        rw [parseMembers_dumpsMembers ((k, v) :: kvs2) ihm f rest (by simp) (by
          simp only [fuelJson] at hf
          omega)]

theorem fuelItems_le (xs : List Json)
    (h : ∀ x ∈ xs, fuelJson x ≤ 2 * (dumps x).length) :
    fuelItems xs ≤ 2 * (dumpsItems xs).length + 2 := by
  induction xs with
  | nil => simp [fuelItems, dumpsItems]
  | cons x xs2 ih =>
    have hx := h x (by simp)
    have ih2 := ih (fun z hz => h z (by simp [hz]))
    cases xs2 with
    | nil =>
      rw [dumpsItems_single]
      simp only [fuelItems]
      omega
    | cons y ys =>
      rw [dumpsItems_cons2]
      simp only [fuelItems, List.length_append, List.length_cons]
      simp only [fuelItems] at ih2
      omega

theorem fuelMembers_le (kvs : List (List Char × Json))
    (h : ∀ kv ∈ kvs, fuelJson kv.2 ≤ 2 * (dumps kv.2).length) :
    fuelMembers kvs ≤ 2 * (dumpsMembers kvs).length + 2 := by
  induction kvs with
  | nil => simp [fuelMembers, dumpsMembers]
  | cons kv kvs2 ih =>
    obtain ⟨k, v⟩ := kv
    have hv : fuelJson v ≤ 2 * (dumps v).length := h (k, v) (by simp)
    have ih2 := ih (fun z hz => h z (by simp [hz]))
    cases kvs2 with
    | nil =>
      rw [dumpsMembers_single]
      simp only [fuelMembers, List.length_cons, List.length_append]
      omega
    | cons m ms =>
      rw [dumpsMembers_cons2]
      simp only [fuelMembers, List.length_append, List.length_cons]
      simp only [fuelMembers] at ih2
      omega

theorem fuelJson_le : ∀ v : Json, fuelJson v ≤ 2 * (dumps v).length := by
  intro v
  induction v using Json.inductionOn with
  | hnull => simp [fuelJson, dumps]
  | hbool b => cases b <;> simp [fuelJson, dumps]
  | hnum i =>
    have h1 : 1 ≤ (dumps (Json.num i)).length := by
      simp only [dumps, intChars]
      by_cases hneg : i < 0
      · rw [if_pos hneg]; simp
      · rw [if_neg hneg]
        cases hne : natDigitsChars i.natAbs with
        | nil => exact absurd hne (natDigitsChars_ne_nil _)
        | cons d ds => simp
    simp only [fuelJson]
    omega
  | hstr s =>
    simp only [fuelJson, dumps, List.length_cons, List.length_append]
    omega
  | harr xs ihx =>
    have h := fuelItems_le xs ihx
    simp only [fuelJson, dumps, List.length_cons, List.length_append,
      List.length_singleton]
    omega
  | hobj kvs ihm =>
    have h := fuelMembers_le kvs ihm
    simp only [fuelJson, dumps, List.length_cons, List.length_append,
      List.length_singleton]
    omega

/-- The serializer/parser round trip of the JSON model: `loads` recovers any
value from its `dumps` text. -/
theorem loads_dumps (v : Json) : loads (dumps v) = some v := by
  unfold loads
  have h := parse_dumps v (2 * (dumps v).length + 2) []
    (by have := fuelJson_le v; omega) rfl
  rw [List.append_nil] at h
  rw [h]
  simp [skipSpaces]

/-- C5: the descriptor a node persists through `generate_music_stimulus_info`
(`json.dumps` of the REPP `stim_info`, then the JSON file writer) is read back
by `TapTrialAnalysis.get_info` (`json.load` of the file, then `json.loads` of
the recovered string) as exactly the original `stim_info` data — in
particular with an identical expected-onset sequence, which is part of that
value.  The well-formedness hypothesis restricts string payloads to the
printable-ASCII range on which the embedded serializer agrees with
`json.dumps`. -/
theorem get_info_roundtrip :
    ∀ {W : Type} (prep : String → String → W × Json × Json) (sn af : String),
      wfJson (prep sn "music").2.1 = true →
      get_info (generate_music_stimulus_info prep [] sn af).1
        = some ((prep sn "music").2.1) := by
  intro W prep sn af _hwf
  have hfile : (generate_music_stimulus_info prep [] sn af).1
      = dumps (Json.str (dumps ((prep sn "music").2.1))) := rfl
  rw [hfile]
  unfold get_info
  rw [loads_dumps (Json.str (dumps ((prep sn "music").2.1)))]
  dsimp only
  rw [loads_dumps ((prep sn "music").2.1)]

/-- Witness for C5 at a concrete input: a two-field descriptor with a
stimulus name and an expected-onset array. -/
theorem get_info_roundtrip_witness :
    wfJson (Json.obj [("stim_name".toList, Json.str "music1psynet".toList),
      ("onsets".toList, Json.arr [Json.num 1, Json.num 2])]) = true ∧
    get_info (generate_music_stimulus_info
        (fun _ _ => ((),
          Json.obj [("stim_name".toList, Json.str "music1psynet".toList),
            ("onsets".toList, Json.arr [Json.num 1, Json.num 2])],
          Json.null))
        [] "music1psynet" "music/music1psynet.wav").1
      = some (Json.obj [("stim_name".toList, Json.str "music1psynet".toList),
          ("onsets".toList, Json.arr [Json.num 1, Json.num 2])]) := by
  have hwf : wfJson (Json.obj [("stim_name".toList, Json.str "music1psynet".toList),
      ("onsets".toList, Json.arr [Json.num 1, Json.num 2])]) = true := by
    simp [wfJson, wfItems, wfMembers, wfChars]
  exact ⟨hwf, get_info_roundtrip
    (fun _ _ => ((),
      Json.obj [("stim_name".toList, Json.str "music1psynet".toList),
        ("onsets".toList, Json.arr [Json.num 1, Json.num 2])],
      Json.null))
    "music1psynet" "music/music1psynet.wav" hwf⟩
